import Mathlib

/-!
Verification of the family-lineage registry service.

The repository contains four incremental revisions of the same Express/MySQL
service.  The claims concern two of them:

* the "FK revision" (second revision in `server.js`): parent/spouse links are
  direct foreign-key columns `father_id`, `mother_id`, `spouse_id` on the
  `persons` row;
* the "normalized revision" (`part_000`): links live in relation tables
  `parent_child (parent_id, child_id)` and
  `marriages (id, person1_id, person2_id, dissolved)`, where the `dissolved`
  column is always written as NULL and never read, so every stored marriage
  edge is active.

Person ids are UUID strings in the source; they are opaque tokens that are
only compared for equality, so we model them as `Nat`.  SQL NULL-able columns
become `Option`; the `married` TINYINT column, which the source only ever
tests with `== 1` / `!= 1` and writes as `1`, becomes `Bool`.
-/

namespace Family

/-- Person row of the normalized revision (`persons` table, no FK columns). -/
structure Person where
  id : Nat
  firstname : String
  surname : String
  dob : String
  gender : Option String
  instagram : Option String
  anniversary : Option String
  married : Bool
  profile_pic : Option String
  role : Option String
deriving DecidableEq, Repr

/-- Database state of the normalized revision: the `persons` table plus the
`parent_child (parent_id, child_id)` and `marriages (person1_id, person2_id)`
relation tables (the marriage surrogate id and the always-NULL `dissolved`
placeholder are never read by any handler and are omitted). -/
structure RelStore where
  persons : List Person
  parentChild : List (Nat × Nat)
  marriages : List (Nat × Nat)
deriving DecidableEq, Repr

/-- `SELECT * FROM persons WHERE id=?` followed by taking `rows[0]`. -/
def relLookup (st : RelStore) (i : Nat) : Option Person :=
  st.persons.find? (fun p => p.id == i)

/-- `SELECT parent_id FROM parent_child WHERE child_id=?`. -/
def parentsOf (st : RelStore) (childId : Nat) : List Nat :=
  (st.parentChild.filter (fun e => e.2 == childId)).map (fun e => e.1)

/-- `SELECT child_id FROM parent_child WHERE parent_id=?`. -/
def childrenOf (st : RelStore) (parentId : Nat) : List Nat :=
  (st.parentChild.filter (fun e => e.1 == parentId)).map (fun e => e.2)

/-- `SELECT * FROM marriages WHERE (person1_id=? AND person2_id=?) OR
(person1_id=? AND person2_id=?)` — the spouse query of `canEdit`. -/
def spouseRows (st : RelStore) (a b : Nat) : List (Nat × Nat) :=
  st.marriages.filter (fun m => (m.1 == a && m.2 == b) || (m.1 == b && m.2 == a))

/-- The permission evaluator of the normalized revision, mirroring the
early-return chain of `canEdit` in `part_000`: editor lookup, ADMIN, self,
parents of editor, children of editor, marriage in either order. -/
def canEdit (st : RelStore) (editorId targetId : Nat) : Bool :=
  match relLookup st editorId with
  | none => false
  | some editor =>
    if editor.role = some "ADMIN" then true
    else if editorId = targetId then true
    else if (parentsOf st editorId).any (fun p => p == targetId) then true
    else if (childrenOf st editorId).any (fun c => c == targetId) then true
    else if !(spouseRows st editorId targetId).isEmpty then true
    else false

/-! ### Normalized-revision mutators and handlers (`part_000`) -/

/-- Request-body attributes of a person created by a mutator (`gender` may be
absent from the body). -/
structure NewAttrs where
  firstname : String
  surname : String
  dob : String
  gender : Option String
deriving DecidableEq, Repr

/-- Person row produced by a mutator's `INSERT INTO persons (id, firstname,
surname, dob, gender[, married])`: every column not named in the INSERT is
NULL (the `married` TINYINT defaults to not-married). -/
def mkPerson (i : Nat) (a : NewAttrs) (married : Bool) : Person :=
  { id := i, firstname := a.firstname, surname := a.surname, dob := a.dob,
    gender := a.gender, instagram := none, anniversary := none,
    married := married, profile_pic := none, role := none }

/-- A handler outcome: the HTTP response (success, or a client-visible error
message) paired with the database state after the handler ran. -/
abbrev Outcome (σ : Type) := Except String Unit × σ

/-- `POST /add-father/:id` of the normalized revision: insert a Male person
and a `parent_child (father, child)` edge.  No precondition is checked. -/
def addFather (st : RelStore) (childId : Nat) (firstname surname dob : String)
    (fatherId : Nat) : Outcome RelStore :=
  (Except.ok (),
    { st with
      persons := st.persons ++ [mkPerson fatherId ⟨firstname, surname, dob, some "Male"⟩ false],
      parentChild := st.parentChild ++ [(fatherId, childId)] })

/-- `POST /add-sibling/:id` of the normalized revision: reject when the target
has no recorded parents, otherwise insert one person and one
`parent_child (p, sibling)` edge per recorded parent `p`. -/
def addSibling (st : RelStore) (personId : Nat) (a : NewAttrs)
    (siblingId : Nat) : Outcome RelStore :=
  let parents := parentsOf st personId
  if parents.isEmpty then (Except.error "Parents required", st)
  else
    (Except.ok (),
      { st with
        persons := st.persons ++ [mkPerson siblingId a false],
        parentChild := st.parentChild ++ parents.map (fun p => (p, siblingId)) })

/-- `POST /add-spouse/:id` of the normalized revision: insert the spouse row
(already flagged married), insert a marriage edge, then set `married=1` on
both ids.  This revision performs no "already married" check. -/
def addSpouse (st : RelStore) (personId : Nat) (a : NewAttrs)
    (spouseId : Nat) : Outcome RelStore :=
  let persons1 := st.persons ++ [mkPerson spouseId a true]
  let persons2 := persons1.map
    (fun p => if p.id = personId ∨ p.id = spouseId then { p with married := true } else p)
  (Except.ok (),
    { persons := persons2,
      parentChild := st.parentChild,
      marriages := st.marriages ++ [(personId, spouseId)] })

/-- `SELECT * FROM marriages WHERE person1_id=? OR person2_id=?`. -/
def marriagesOf (st : RelStore) (i : Nat) : List (Nat × Nat) :=
  st.marriages.filter (fun m => m.1 == i || m.2 == i)

/-- The other member of a marriage row, as computed by the add-child handler:
`m.person1_id === parentId ? m.person2_id : m.person1_id`. -/
def spouseInMarriage (m : Nat × Nat) (parentId : Nat) : Nat :=
  if m.1 = parentId then m.2 else m.1

/-- `POST /add-child/:id` of the normalized revision: insert the child and a
`parent_child (parent, child)` edge; then, if the parent appears in any
marriage row, also insert `parent_child (spouse, child)` for the spouse taken
from the first such row.  This revision performs no marital precondition. -/
def addChild (st : RelStore) (parentId : Nat) (a : NewAttrs)
    (childId : Nat) : Outcome RelStore :=
  let persons1 := st.persons ++ [mkPerson childId a false]
  let pc1 := st.parentChild ++ [(parentId, childId)]
  match marriagesOf st parentId with
  | [] => (Except.ok (), { st with persons := persons1, parentChild := pc1 })
  | m :: _ =>
    (Except.ok (),
      { st with
        persons := persons1,
        parentChild := pc1 ++ [(spouseInMarriage m parentId, childId)] })

/-- Request body of `PUT /persons/:id`; absent properties are `none`. -/
structure UpdateBody where
  firstname : Option String
  surname : Option String
  dob : Option String
  gender : Option String
  instagram : Option String
  anniversary : Option String
  married : Option Bool
deriving DecidableEq, Repr

/-- The `value || null` coalescing the handler applies to each body string
before binding it as a SQL parameter: an absent value or the falsy empty
string becomes NULL. -/
def coalesceStr : Option String → Option String
  | some s => if s = "" then none else some s
  | none => none

/-- The `value || null` coalescing for the `married` body value: absent or
falsy `false`/`0` becomes NULL. -/
def coalesceBool : Option Bool → Option Bool
  | some b => if b then some true else none
  | none => none

/-- `COALESCE(param, column)` for a NULL-able column. -/
def mergeOpt (param col : Option String) : Option String :=
  match param with
  | some s => some s
  | none => col

/-- The row produced by the partial-merge `UPDATE persons SET field =
COALESCE(?, field), ...` of the later revisions, with parameters
`value || null` from the body and `photo` from the file upload. -/
def mergePerson (p : Person) (b : UpdateBody) (photo : Option String) : Person :=
  { p with
    firstname := (coalesceStr b.firstname).getD p.firstname,
    surname := (coalesceStr b.surname).getD p.surname,
    dob := (coalesceStr b.dob).getD p.dob,
    gender := mergeOpt (coalesceStr b.gender) p.gender,
    instagram := mergeOpt (coalesceStr b.instagram) p.instagram,
    anniversary := mergeOpt (coalesceStr b.anniversary) p.anniversary,
    married := (coalesceBool b.married).getD p.married,
    profile_pic := mergeOpt photo p.profile_pic }

/-- `PUT /persons/:id` of the normalized (partial-merge) revision: permission
check first, then the single COALESCE UPDATE on the rows matching the id. -/
def putPerson (st : RelStore) (editorId targetId : Nat) (b : UpdateBody)
    (photo : Option String) : Outcome RelStore :=
  if canEdit st editorId targetId then
    (Except.ok (),
      { st with
        persons := st.persons.map
          (fun p => if p.id = targetId then mergePerson p b photo else p) })
  else (Except.error "Permission denied", st)

/-- Update body that supplies only an instagram value. -/
def instagramOnlyBody (s : String) : UpdateBody :=
  { firstname := none, surname := none, dob := none, gender := none,
    instagram := some s, anniversary := none, married := none }

/-- Response of `POST /login`. -/
inductive LoginResult where
  | unauthorized : LoginResult
  | userNotFound : LoginResult
  | ok : Person → LoginResult
deriving DecidableEq, Repr

/-- `POST /login`: the shared-secret comparison runs before any lookup; then
`SELECT * FROM persons WHERE firstname=? AND surname=?`, 404 on no rows,
otherwise 200 with `rows[0]`. -/
def login (secret : String) (st : RelStore)
    (firstname surname privateKey : String) : LoginResult :=
  if privateKey ≠ secret then LoginResult.unauthorized
  else
    match st.persons.filter (fun p => p.firstname == firstname && p.surname == surname) with
    | [] => LoginResult.userNotFound
    | p :: _ => LoginResult.ok p

/-! ### FK revision (second revision in `server.js`) -/

/-- Person row of the FK revision: parent and spouse links are direct
foreign-key columns on the row. -/
structure FkPerson where
  id : Nat
  firstname : String
  surname : String
  dob : String
  gender : Option String
  instagram : Option String
  anniversary : Option String
  married : Bool
  profile_pic : Option String
  role : Option String
  father_id : Option Nat
  mother_id : Option Nat
  spouse_id : Option Nat
deriving DecidableEq, Repr

/-- Database state of the FK revision: just the `persons` table. -/
structure FkStore where
  persons : List FkPerson
deriving DecidableEq, Repr

/-- `SELECT * FROM persons WHERE id=?` followed by taking `rows[0]`. -/
def fkLookup (st : FkStore) (i : Nat) : Option FkPerson :=
  st.persons.find? (fun p => p.id == i)

/-- The permission evaluator of the FK revision, mirroring `canEdit` in
`server.js`: editor lookup, ADMIN, target lookup (deny when absent), self,
target is the editor's father/mother, target is the editor's spouse, editor
is the target's father/mother. -/
def canEditFk (st : FkStore) (editorId targetId : Nat) : Bool :=
  match fkLookup st editorId with
  | none => false
  | some editor =>
    if editor.role = some "ADMIN" then true
    else
      match fkLookup st targetId with
      | none => false
      | some target =>
        if editor.id = target.id then true
        else if editor.father_id = some target.id ∨ editor.mother_id = some target.id then true
        else if editor.spouse_id = some target.id then true
        else if target.father_id = some editor.id ∨ target.mother_id = some editor.id then true
        else false

/-- Row inserted by the FK revision's add-spouse:
`INSERT INTO persons (id, firstname, surname, dob, gender, married)
VALUES (?, ?, ?, ?, ?, 1)` — FK columns default to NULL. -/
def mkFkSpouse (i : Nat) (a : NewAttrs) : FkPerson :=
  { id := i, firstname := a.firstname, surname := a.surname, dob := a.dob,
    gender := a.gender, instagram := none, anniversary := none,
    married := true, profile_pic := none, role := none,
    father_id := none, mother_id := none, spouse_id := none }

/-- `POST /add-spouse/:id` of the FK revision.  The handler reads `rows[0]`
of the target lookup with no existence check; a missing target makes the JS
dereference an absent record (`person.married` on `undefined`), modelled as
`none`.  Otherwise: reject when the target is already married, else insert
the spouse row and set `spouse_id`/`married` on both rows. -/
def addSpouseFk (st : FkStore) (personId : Nat) (a : NewAttrs)
    (spouseId : Nat) : Option (Outcome FkStore) :=
  match fkLookup st personId with
  | none => none
  | some person =>
    if person.married then some (Except.error "Already married", st)
    else
      let persons1 := st.persons ++ [mkFkSpouse spouseId a]
      let persons2 := persons1.map
        (fun p => if p.id = personId then { p with spouse_id := some spouseId, married := true } else p)
      let persons3 := persons2.map
        (fun p => if p.id = spouseId then { p with spouse_id := some personId, married := true } else p)
      some (Except.ok (), { persons := persons3 })

/-- `POST /add-child/:id` of the FK revision.  Same unchecked `rows[0]` read
(missing target modelled as `none`); rejects when the parent is not married,
else inserts the child with `father_id`/`mother_id` assigned from the parent
and the parent's `spouse_id` according to the parent's gender. -/
def addChildFk (st : FkStore) (parentId : Nat) (a : NewAttrs)
    (childId : Nat) : Option (Outcome FkStore) :=
  match fkLookup st parentId with
  | none => none
  | some parent =>
    if !parent.married then some (Except.error "Must be married to add child", st)
    else
      let fm : Option Nat × Option Nat :=
        if parent.gender = some "Male" then (some parent.id, parent.spouse_id)
        else (parent.spouse_id, some parent.id)
      let child : FkPerson :=
        { id := childId, firstname := a.firstname, surname := a.surname,
          dob := a.dob, gender := a.gender, instagram := none,
          anniversary := none, married := false, profile_pic := none,
          role := none, father_id := fm.1, mother_id := fm.2, spouse_id := none }
      some (Except.ok (), { persons := st.persons ++ [child] })

/-! ### Correspondence between the two schema variants -/

/-- Existence of a person id in the normalized store. -/
def relExists (st : RelStore) (i : Nat) : Bool :=
  (relLookup st i).isSome

/-- Existence of a person id in the FK store. -/
def fkExists (st : FkStore) (i : Nat) : Bool :=
  (fkLookup st i).isSome

/-- The FK store records `par` as a parent of `ch` (on the row the lookup
actually resolves). -/
def fkParentB (fk : FkStore) (par ch : Nat) : Bool :=
  match fkLookup fk ch with
  | some p => p.father_id == some par || p.mother_id == some par
  | none => false

/-- The FK store records `b` as the spouse of `a`. -/
def fkSpouseB (fk : FkStore) (a b : Nat) : Bool :=
  match fkLookup fk a with
  | some p => p.spouse_id == some b
  | none => false

/-- The normalized store holds a marriage edge joining `a` and `b` in either
order. -/
def relMarrB (r : RelStore) (a b : Nat) : Bool :=
  r.marriages.any (fun m => (m.1 == a && m.2 == b) || (m.1 == b && m.2 == a))

/-- Every parent FK of this row is mirrored by a `parent_child` edge. -/
def parentColsMirrored (p : FkPerson) (r : RelStore) : Bool :=
  (match p.father_id with
   | some f => decide ((f, p.id) ∈ r.parentChild)
   | none => true) &&
  (match p.mother_id with
   | some m => decide ((m, p.id) ∈ r.parentChild)
   | none => true)

/-- The spouse FK of this row (if any) is mirrored by a marriage edge. -/
def spouseColMirrored (p : FkPerson) (r : RelStore) : Bool :=
  match p.spouse_id with
  | some s => relMarrB r p.id s
  | none => true

/-- The two stores encode the same graph shape: the same person ids with the
same roles, parent/child pairs that coincide (FK columns versus
`parent_child` rows), and marriage pairs that coincide (`spouse_id` columns
versus `marriages` rows, which are unordered). -/
def EquivStores (fk : FkStore) (r : RelStore) : Prop :=
  (∀ p ∈ fk.persons, relExists r p.id = true) ∧
  (∀ p ∈ r.persons, fkExists fk p.id = true) ∧
  (∀ p ∈ fk.persons, (fkLookup fk p.id).map FkPerson.role = (relLookup r p.id).map Person.role) ∧
  (∀ e ∈ r.parentChild, fkParentB fk e.1 e.2 = true) ∧
  (∀ p ∈ fk.persons, parentColsMirrored p r = true) ∧
  (∀ m ∈ r.marriages, fkSpouseB fk m.1 m.2 = true ∧ fkSpouseB fk m.2 m.1 = true) ∧
  (∀ p ∈ fk.persons, spouseColMirrored p r = true)

/-- Every relation edge references existing person rows. -/
def NoDangling (r : RelStore) : Prop :=
  (∀ e ∈ r.parentChild, relExists r e.1 = true ∧ relExists r e.2 = true) ∧
  (∀ m ∈ r.marriages, relExists r m.1 = true ∧ relExists r m.2 = true)

instance (fk : FkStore) (r : RelStore) : Decidable (EquivStores fk r) := by
  unfold EquivStores
  infer_instance

instance (r : RelStore) : Decidable (NoDangling r) := by
  unfold NoDangling
  infer_instance

/-! ### Concrete fixtures used by witnesses and counterexamples -/

/-- A concrete person row with the given id. -/
def basePerson (i : Nat) : Person :=
  { id := i, firstname := "f", surname := "s", dob := "2000-01-01",
    gender := none, instagram := none, anniversary := none,
    married := false, profile_pic := none, role := none }

/-- A concrete FK person row with the given id and no FK links. -/
def baseFkPerson (i : Nat) : FkPerson :=
  { id := i, firstname := "f", surname := "s", dob := "2000-01-01",
    gender := none, instagram := none, anniversary := none,
    married := false, profile_pic := none, role := none,
    father_id := none, mother_id := none, spouse_id := none }

/-- Concrete attribute set used by witness instantiations. -/
def sampleAttrs : NewAttrs :=
  { firstname := "n", surname := "s", dob := "2001-02-03", gender := none }

/-- FK store with one person whose `father_id` names an id that has no person
row: the same dangling parent pair in both representations. -/
def fkDangling : FkStore :=
  ⟨[{ baseFkPerson 1 with father_id := some 2 }]⟩

/-- Normalized store matching `fkDangling`: person 1 plus the dangling
`parent_child (2, 1)` edge. -/
def relDangling : RelStore :=
  ⟨[basePerson 1], [(2, 1)], []⟩

/-- FK store with a married couple 1 and 2. -/
def fkCouple : FkStore :=
  ⟨[{ baseFkPerson 1 with married := true, spouse_id := some 2 },
    { baseFkPerson 2 with married := true, spouse_id := some 1 }]⟩

/-- Normalized store matching `fkCouple`. -/
def relCouple : RelStore :=
  ⟨[{ basePerson 1 with married := true },
    { basePerson 2 with married := true }], [], [(1, 2)]⟩

/-- FK store with one (unmarried) person, id 1. -/
def fkSingle : FkStore := ⟨[baseFkPerson 1]⟩

/-- The FK store after a first successful add-spouse on person 1 (new spouse
id 2) in `fkSingle`. -/
def fkSingleAfterSpouse : FkStore :=
  match addSpouseFk fkSingle 1 sampleAttrs 2 with
  | some (Except.ok _, s) => s
  | _ => ⟨[]⟩

/-- Normalized store with persons 1, 2 and a parent edge from 2 to 1, plus a
marriage of 1 and 3 (person 3 exists as well). -/
def relFamily : RelStore :=
  ⟨[basePerson 1, basePerson 2, { basePerson 3 with married := true }],
    [(2, 1)], [(1, 3)]⟩

/-- The store produced by running add-father against an empty database (a
target id that matches no person row): the mutator still creates the father
and the edge. -/
def relOrphanEdge : RelStore :=
  (addFather ⟨[], [], []⟩ 1 "f" "s" "1970-01-01" 2).2

/-- An update body in which every supplied value is falsy. -/
def falsyBody : UpdateBody :=
  { firstname := some "", surname := some "", dob := some "", gender := some "",
    instagram := some "", anniversary := some "", married := some false }

/-- The per-row effect an instagram-only permitted PUT is expected to have. -/
def setInstagram (t : Nat) (s : String) (p : Person) : Person :=
  if p.id = t then { p with instagram := some s } else p

theorem relLookup_mem {st : RelStore} {i : Nat} {p : Person}
    (h : relLookup st i = some p) : p ∈ st.persons ∧ p.id = i := by
  unfold relLookup at h
  refine ⟨List.mem_of_find?_eq_some h, ?_⟩
  have hp := List.find?_some h
  simpa using hp

theorem parentsOf_any_iff (st : RelStore) (e t : Nat) :
    (parentsOf st e).any (fun p => p == t) = true ↔ (t, e) ∈ st.parentChild := by
  simp only [parentsOf, List.any_eq_true, List.mem_map, List.mem_filter, beq_iff_eq]
  constructor
  · rintro ⟨x, ⟨y, ⟨hy, h2⟩, rfl⟩, h1⟩
    have : y = (t, e) := by
      cases y
      simp_all
    rw [this] at hy
    exact hy
  · intro h
    exact ⟨t, ⟨(t, e), ⟨h, rfl⟩, rfl⟩, rfl⟩

theorem childrenOf_any_iff (st : RelStore) (e t : Nat) :
    (childrenOf st e).any (fun c => c == t) = true ↔ (e, t) ∈ st.parentChild := by
  simp only [childrenOf, List.any_eq_true, List.mem_map, List.mem_filter, beq_iff_eq]
  constructor
  · rintro ⟨x, ⟨y, ⟨hy, h2⟩, rfl⟩, h1⟩
    have : y = (e, t) := by
      cases y
      simp_all
    rw [this] at hy
    exact hy
  · intro h
    exact ⟨t, ⟨(e, t), ⟨h, rfl⟩, rfl⟩, rfl⟩

theorem spouseRows_nonempty_iff (st : RelStore) (e t : Nat) :
    (!(spouseRows st e t).isEmpty) = true ↔
      (e, t) ∈ st.marriages ∨ (t, e) ∈ st.marriages := by
  rw [Bool.not_eq_true', List.isEmpty_eq_false_iff_exists_mem]
  simp only [spouseRows, List.mem_filter]
  constructor
  · rintro ⟨⟨a, b⟩, hm, hcond⟩
    simp only [Bool.or_eq_true, Bool.and_eq_true, beq_iff_eq] at hcond
    rcases hcond with ⟨h1, h2⟩ | ⟨h1, h2⟩
    · left; rw [← h1, ← h2]; exact hm
    · right; rw [← h1, ← h2]; exact hm
  · rintro (h | h)
    · exact ⟨(e, t), h, by simp⟩
    · exact ⟨(t, e), h, by simp⟩

theorem canEdit_eq_of_none {st : RelStore} {e : Nat} (t : Nat)
    (h : relLookup st e = none) : canEdit st e t = false := by
  unfold canEdit
  rw [h]

theorem canEdit_eq_of_some {st : RelStore} {e : Nat} (t : Nat) {ed : Person}
    (h : relLookup st e = some ed) :
    canEdit st e t =
      (if ed.role = some "ADMIN" then true
       else if e = t then true
       else if (parentsOf st e).any (fun p => p == t) then true
       else if (childrenOf st e).any (fun c => c == t) then true
       else if !(spouseRows st e t).isEmpty then true
       else false) := by
  unfold canEdit
  rw [h]

/-- Characterization of the normalized `canEdit`: it grants exactly the five
allow conditions, guarded by editor existence. -/
theorem canEdit_true_iff (st : RelStore) (e t : Nat) :
    canEdit st e t = true ↔
      ∃ ed, relLookup st e = some ed ∧
        (ed.role = some "ADMIN" ∨ e = t ∨ (t, e) ∈ st.parentChild ∨
          (e, t) ∈ st.parentChild ∨ (e, t) ∈ st.marriages ∨ (t, e) ∈ st.marriages) := by
  constructor
  · intro h
    cases hl : relLookup st e with
    | none => rw [canEdit_eq_of_none t hl] at h; exact absurd h (by simp)
    | some ed =>
      rw [canEdit_eq_of_some t hl] at h
      refine ⟨ed, rfl, ?_⟩
      by_cases h1 : ed.role = some "ADMIN"
      · exact Or.inl h1
      · rw [if_neg h1] at h
        by_cases h2 : e = t
        · exact Or.inr (Or.inl h2)
        · rw [if_neg h2] at h
          by_cases h3 : ((parentsOf st e).any fun p => p == t) = true
          · exact Or.inr (Or.inr (Or.inl ((parentsOf_any_iff st e t).mp h3)))
          · rw [if_neg h3] at h
            by_cases h4 : ((childrenOf st e).any fun c => c == t) = true
            · exact Or.inr (Or.inr (Or.inr (Or.inl ((childrenOf_any_iff st e t).mp h4))))
            · rw [if_neg h4] at h
              by_cases h5 : (!(spouseRows st e t).isEmpty) = true
              · rcases (spouseRows_nonempty_iff st e t).mp h5 with hm | hm
                · exact Or.inr (Or.inr (Or.inr (Or.inr (Or.inl hm))))
                · exact Or.inr (Or.inr (Or.inr (Or.inr (Or.inr hm))))
              · rw [if_neg h5] at h; exact absurd h (by simp)
  · rintro ⟨ed, hed, hcond⟩
    rw [canEdit_eq_of_some t hed]
    rcases hcond with h | h | h | h | h | h
    · simp [h]
    · simp [h]
    · have hb := (parentsOf_any_iff st e t).mpr h
      simp [hb]
    · have hb := (childrenOf_any_iff st e t).mpr h
      simp [hb]
    · have hb := (spouseRows_nonempty_iff st e t).mpr (Or.inl h)
      simp [hb]
    · have hb := (spouseRows_nonempty_iff st e t).mpr (Or.inr h)
      simp [hb]

/-- C1: the normalized `canEdit` returns true iff the editor resolves to an
existing person and one of the five allow conditions holds (ADMIN role, self,
target is a parent of the editor, target is a child of the editor, or a
marriage edge joins the two in either order); every other pair is denied.
All matching branches of the source's early-return chain return `true`, so
the first-match-wins precedence is extensionally this disjunction. -/
theorem canEdit_decision_policy (st : RelStore) (e t : Nat) :
    canEdit st e t = true ↔
      ∃ ed, relLookup st e = some ed ∧
        (ed.role = some "ADMIN" ∨ e = t ∨ (t, e) ∈ st.parentChild ∨
          (e, t) ∈ st.parentChild ∨ (e, t) ∈ st.marriages ∨ (t, e) ∈ st.marriages) :=
  canEdit_true_iff st e t

theorem fkLookup_mem {st : FkStore} {i : Nat} {p : FkPerson}
    (h : fkLookup st i = some p) : p ∈ st.persons ∧ p.id = i := by
  unfold fkLookup at h
  refine ⟨List.mem_of_find?_eq_some h, ?_⟩
  have hp := List.find?_some h
  simpa using hp

theorem canEditFk_eq_of_none {st : FkStore} {e : Nat} (t : Nat)
    (h : fkLookup st e = none) : canEditFk st e t = false := by
  unfold canEditFk
  rw [h]

theorem canEditFk_eq_of_some {st : FkStore} {e : Nat} (t : Nat) {ed : FkPerson}
    (h : fkLookup st e = some ed) :
    canEditFk st e t =
      (if ed.role = some "ADMIN" then true
       else
         match fkLookup st t with
         | none => false
         | some target =>
           if ed.id = target.id then true
           else if ed.father_id = some target.id ∨ ed.mother_id = some target.id then true
           else if ed.spouse_id = some target.id then true
           else if target.father_id = some ed.id ∨ target.mother_id = some ed.id then true
           else false) := by
  unfold canEditFk
  rw [h]

/-- Characterization of the FK-revision `canEdit`. -/
theorem canEditFk_true_iff (st : FkStore) (e t : Nat) :
    canEditFk st e t = true ↔
      ∃ ed, fkLookup st e = some ed ∧
        (ed.role = some "ADMIN" ∨
          ∃ tg, fkLookup st t = some tg ∧
            (e = t ∨ ed.father_id = some t ∨ ed.mother_id = some t ∨
              ed.spouse_id = some t ∨ tg.father_id = some e ∨ tg.mother_id = some e)) := by
  constructor
  · intro h
    cases hl : fkLookup st e with
    | none => rw [canEditFk_eq_of_none t hl] at h; exact absurd h (by simp)
    | some ed =>
      rw [canEditFk_eq_of_some t hl] at h
      obtain ⟨hedmem, hedid⟩ := fkLookup_mem hl
      refine ⟨ed, rfl, ?_⟩
      by_cases h1 : ed.role = some "ADMIN"
      · exact Or.inl h1
      · rw [if_neg h1] at h
        right
        cases ht : fkLookup st t with
        | none => rw [ht] at h; exact absurd h (by simp)
        | some tg =>
          rw [ht] at h
          dsimp only at h
          obtain ⟨htgmem, htgid⟩ := fkLookup_mem ht
          refine ⟨tg, rfl, ?_⟩
          by_cases h2 : ed.id = tg.id
          · left; rw [← hedid, ← htgid]; exact h2
          · rw [if_neg h2] at h
            by_cases h3 : ed.father_id = some tg.id ∨ ed.mother_id = some tg.id
            · rw [htgid] at h3
              rcases h3 with h3 | h3
              · exact Or.inr (Or.inl h3)
              · exact Or.inr (Or.inr (Or.inl h3))
            · rw [if_neg h3] at h
              by_cases h4 : ed.spouse_id = some tg.id
              · rw [htgid] at h4
                exact Or.inr (Or.inr (Or.inr (Or.inl h4)))
              · rw [if_neg h4] at h
                by_cases h5 : tg.father_id = some ed.id ∨ tg.mother_id = some ed.id
                · rw [hedid] at h5
                  rcases h5 with h5 | h5
                  · exact Or.inr (Or.inr (Or.inr (Or.inr (Or.inl h5))))
                  · exact Or.inr (Or.inr (Or.inr (Or.inr (Or.inr h5))))
                · rw [if_neg h5] at h; exact absurd h (by simp)
  · rintro ⟨ed, hed, hcond⟩
    rw [canEditFk_eq_of_some t hed]
    obtain ⟨hedmem, hedid⟩ := fkLookup_mem hed
    rcases hcond with h1 | ⟨tg, htg, hcond⟩
    · simp [h1]
    · obtain ⟨htgmem, htgid⟩ := fkLookup_mem htg
      rw [htg]
      by_cases hadm : ed.role = some "ADMIN"
      · simp [hadm]
      · rw [if_neg hadm]
        rcases hcond with h | h | h | h | h | h
        · have : ed.id = tg.id := by rw [hedid, htgid, h]
          simp [this]
        · have : ed.father_id = some tg.id ∨ ed.mother_id = some tg.id := by
            rw [htgid]; exact Or.inl h
          simp [this]
        · have : ed.father_id = some tg.id ∨ ed.mother_id = some tg.id := by
            rw [htgid]; exact Or.inr h
          simp [this]
        · have : ed.spouse_id = some tg.id := by rw [htgid]; exact h
          simp [this]
        · have : tg.father_id = some ed.id ∨ tg.mother_id = some ed.id := by
            rw [hedid]; exact Or.inl h
          simp [this]
        · have : tg.father_id = some ed.id ∨ tg.mother_id = some ed.id := by
            rw [hedid]; exact Or.inr h
          simp [this]

theorem boolEqOfIff {a b : Bool} (h : a = true ↔ b = true) : a = b := by
  cases a <;> cases b <;> simp_all

theorem relExists_iff (st : RelStore) (i : Nat) :
    relExists st i = true ↔ ∃ p, relLookup st i = some p := by
  simp [relExists, Option.isSome_iff_exists]

theorem fkExists_iff (st : FkStore) (i : Nat) :
    fkExists st i = true ↔ ∃ p, fkLookup st i = some p := by
  simp [fkExists, Option.isSome_iff_exists]

theorem relMarrB_true_iff (r : RelStore) (a b : Nat) :
    relMarrB r a b = true ↔ (a, b) ∈ r.marriages ∨ (b, a) ∈ r.marriages := by
  simp only [relMarrB, List.any_eq_true, Bool.or_eq_true, Bool.and_eq_true, beq_iff_eq]
  constructor
  · rintro ⟨⟨x, y⟩, hm, ⟨h1, h2⟩ | ⟨h1, h2⟩⟩
    · left; rw [← h1, ← h2]; exact hm
    · right; rw [← h1, ← h2]; exact hm
  · rintro (h | h)
    · exact ⟨(a, b), h, Or.inl ⟨rfl, rfl⟩⟩
    · exact ⟨(b, a), h, Or.inr ⟨rfl, rfl⟩⟩

theorem parentColsMirrored_father {p : FkPerson} {r : RelStore} {f : Nat}
    (h : parentColsMirrored p r = true) (hf : p.father_id = some f) :
    (f, p.id) ∈ r.parentChild := by
  unfold parentColsMirrored at h
  rw [hf] at h
  simp only [Bool.and_eq_true, decide_eq_true_eq] at h
  exact h.1

theorem parentColsMirrored_mother {p : FkPerson} {r : RelStore} {m : Nat}
    (h : parentColsMirrored p r = true) (hm : p.mother_id = some m) :
    (m, p.id) ∈ r.parentChild := by
  unfold parentColsMirrored at h
  rw [hm] at h
  simp only [Bool.and_eq_true, decide_eq_true_eq] at h
  exact h.2

theorem spouseColMirrored_spec {p : FkPerson} {r : RelStore} {s : Nat}
    (h : spouseColMirrored p r = true) (hs : p.spouse_id = some s) :
    relMarrB r p.id s = true := by
  unfold spouseColMirrored at h
  rwa [hs] at h

theorem fkParentB_spec {fk : FkStore} {par ch : Nat} {p : FkPerson}
    (hl : fkLookup fk ch = some p) (h : fkParentB fk par ch = true) :
    p.father_id = some par ∨ p.mother_id = some par := by
  unfold fkParentB at h
  rw [hl] at h
  simpa using h

theorem fkSpouseB_spec {fk : FkStore} {a b : Nat} {p : FkPerson}
    (hl : fkLookup fk a = some p) (h : fkSpouseB fk a b = true) :
    p.spouse_id = some b := by
  unfold fkSpouseB at h
  rw [hl] at h
  simpa using h

theorem roles_agree {fk : FkStore} {r : RelStore}
    (h3 : ∀ p ∈ fk.persons, (fkLookup fk p.id).map FkPerson.role = (relLookup r p.id).map Person.role)
    {i : Nat} {ed : FkPerson} {ed' : Person}
    (hed : fkLookup fk i = some ed) (hed' : relLookup r i = some ed') :
    ed.role = ed'.role := by
  obtain ⟨hm, hid⟩ := fkLookup_mem hed
  have h := h3 ed hm
  rw [hid, hed, hed'] at h
  simpa using h

theorem fkExists_of_relExists {fk : FkStore} {r : RelStore}
    (h2 : ∀ p ∈ r.persons, fkExists fk p.id = true) {i : Nat}
    (h : relExists r i = true) : fkExists fk i = true := by
  obtain ⟨p, hp⟩ := (relExists_iff r i).mp h
  obtain ⟨hm, hid⟩ := relLookup_mem hp
  have := h2 p hm
  rwa [hid] at this

/-- C2 (amended): the two `canEdit` implementations agree on every pair
whenever the two stores encode the same graph shape and, additionally, every
relation edge references existing person rows.  Without the no-dangling-edge
condition the claim fails (see the counterexample). -/
theorem canEdit_fk_rel_agree (fk : FkStore) (r : RelStore)
    (heq : EquivStores fk r) (hnd : NoDangling r) (e t : Nat) :
    canEditFk fk e t = canEdit r e t := by
  obtain ⟨hpe1, hpe2, hrole, hpc1, hpc2, hma1, hma2⟩ := heq
  obtain ⟨hd1, hd2⟩ := hnd
  apply boolEqOfIff
  rw [canEditFk_true_iff, canEdit_true_iff]
  constructor
  · rintro ⟨ed, hed, hcond⟩
    obtain ⟨hedmem, hedid⟩ := fkLookup_mem hed
    have hre : relExists r e = true := by
      have := hpe1 ed hedmem
      rwa [hedid] at this
    obtain ⟨ed', hed'⟩ := (relExists_iff r e).mp hre
    refine ⟨ed', hed', ?_⟩
    rcases hcond with hadm | ⟨tg, htg, hsub⟩
    · left
      rw [← roles_agree hrole hed hed']
      exact hadm
    · obtain ⟨htgmem, htgid⟩ := fkLookup_mem htg
      rcases hsub with h | h | h | h | h | h
      · exact Or.inr (Or.inl h)
      · have := parentColsMirrored_father (hpc2 ed hedmem) h
        rw [hedid] at this
        exact Or.inr (Or.inr (Or.inl this))
      · have := parentColsMirrored_mother (hpc2 ed hedmem) h
        rw [hedid] at this
        exact Or.inr (Or.inr (Or.inl this))
      · have := spouseColMirrored_spec (hma2 ed hedmem) h
        rw [hedid] at this
        rcases (relMarrB_true_iff r e t).mp this with hm | hm
        · exact Or.inr (Or.inr (Or.inr (Or.inr (Or.inl hm))))
        · exact Or.inr (Or.inr (Or.inr (Or.inr (Or.inr hm))))
      · have := parentColsMirrored_father (hpc2 tg htgmem) h
        rw [htgid] at this
        exact Or.inr (Or.inr (Or.inr (Or.inl this)))
      · have := parentColsMirrored_mother (hpc2 tg htgmem) h
        rw [htgid] at this
        exact Or.inr (Or.inr (Or.inr (Or.inl this)))
  · rintro ⟨ed', hed', hcond⟩
    obtain ⟨hedmem', hedid'⟩ := relLookup_mem hed'
    have hfe : fkExists fk e = true := by
      have := hpe2 ed' hedmem'
      rwa [hedid'] at this
    obtain ⟨ed, hed⟩ := (fkExists_iff fk e).mp hfe
    refine ⟨ed, hed, ?_⟩
    rcases hcond with hadm | h | h | h | h | h
    · left
      rw [roles_agree hrole hed hed']
      exact hadm
    · subst h
      exact Or.inr ⟨ed, hed, Or.inl rfl⟩
    · -- target is a parent of the editor: (t, e) ∈ parent_child
      have hte : relExists r t = true := (hd1 (t, e) h).1
      obtain ⟨tg, htg⟩ := (fkExists_iff fk t).mp (fkExists_of_relExists hpe2 hte)
      rcases fkParentB_spec hed (hpc1 (t, e) h) with hf | hf
      · exact Or.inr ⟨tg, htg, Or.inr (Or.inl hf)⟩
      · exact Or.inr ⟨tg, htg, Or.inr (Or.inr (Or.inl hf))⟩
    · -- target is a child of the editor: (e, t) ∈ parent_child
      have hte : relExists r t = true := (hd1 (e, t) h).2
      obtain ⟨tg, htg⟩ := (fkExists_iff fk t).mp (fkExists_of_relExists hpe2 hte)
      rcases fkParentB_spec htg (hpc1 (e, t) h) with hf | hf
      · exact Or.inr ⟨tg, htg, Or.inr (Or.inr (Or.inr (Or.inr (Or.inl hf))))⟩
      · exact Or.inr ⟨tg, htg, Or.inr (Or.inr (Or.inr (Or.inr (Or.inr hf))))⟩
    · -- marriage edge (e, t)
      have hte : relExists r t = true := (hd2 (e, t) h).2
      obtain ⟨tg, htg⟩ := (fkExists_iff fk t).mp (fkExists_of_relExists hpe2 hte)
      have hs := fkSpouseB_spec hed (hma1 (e, t) h).1
      exact Or.inr ⟨tg, htg, Or.inr (Or.inr (Or.inr (Or.inl hs)))⟩
    · -- marriage edge (t, e)
      have hte : relExists r t = true := (hd2 (t, e) h).1
      obtain ⟨tg, htg⟩ := (fkExists_iff fk t).mp (fkExists_of_relExists hpe2 hte)
      have hs := fkSpouseB_spec hed (hma1 (t, e) h).2
      exact Or.inr ⟨tg, htg, Or.inr (Or.inr (Or.inr (Or.inl hs)))⟩

/-- Counterexample to C2 as stated: the two stores hold the same person
(id 1), the same parent pair (2 is a parent of 1) and the same (empty)
marriage pairs, yet the FK evaluator denies `canEdit 1 2` (target row 2 is
absent) while the relation-table evaluator grants it. -/
theorem canEdit_variants_disagree_dangling :
    EquivStores fkDangling relDangling ∧
    canEditFk fkDangling 1 2 = false ∧ canEdit relDangling 1 2 = true :=
  ⟨by decide, by decide, by decide⟩

/-- Witness for C2's amended theorem at a concrete married couple. -/
theorem canEdit_fk_rel_agree_witness :
    EquivStores fkCouple relCouple ∧ NoDangling relCouple ∧
    canEditFk fkCouple 1 2 = canEdit relCouple 1 2 :=
  ⟨by decide, by decide, canEdit_fk_rel_agree fkCouple relCouple (by decide) (by decide) 1 2⟩

/-- C3: add-child in the normalized revision creates exactly two
`parent_child` edges for the new child when the named parent appears in at
least one marriage row — one from the parent and one from the spouse taken
from the first such row — and exactly one edge (from the named parent) when
the parent has no marriage row. -/
theorem addChild_edge_counts (st : RelStore) (pid : Nat) (a : NewAttrs) (cid : Nat) :
    (∀ m rest, marriagesOf st pid = m :: rest →
      (addChild st pid a cid).2.parentChild =
          st.parentChild ++ [(pid, cid), (spouseInMarriage m pid, cid)] ∧
        (addChild st pid a cid).2.parentChild.length = st.parentChild.length + 2) ∧
    (marriagesOf st pid = [] →
      (addChild st pid a cid).2.parentChild = st.parentChild ++ [(pid, cid)] ∧
        (addChild st pid a cid).2.parentChild.length = st.parentChild.length + 1) := by
  constructor
  · intro m rest hm
    unfold addChild
    rw [hm]
    refine ⟨?_, ?_⟩
    · simp
    · simp
  · intro hm
    unfold addChild
    rw [hm]
    exact ⟨rfl, by simp⟩

/-- Witness for C3: in `relFamily`, person 1 is married (first marriage row
`(1, 3)`), person 2 is not. -/
theorem addChild_edge_counts_witness :
    (addChild relFamily 1 sampleAttrs 9).2.parentChild =
        relFamily.parentChild ++ [(1, 9), (spouseInMarriage (1, 3) 1, 9)] ∧
      (addChild relFamily 2 sampleAttrs 9).2.parentChild =
        relFamily.parentChild ++ [(2, 9)] :=
  ⟨((addChild_edge_counts relFamily 1 sampleAttrs 9).1 (1, 3) [] (by decide)).1,
   ((addChild_edge_counts relFamily 2 sampleAttrs 9).2 (by decide)).1⟩

/-- C5: add-sibling on a target with no recorded parents fails before any
write, leaving the store untouched and creating no person; on a target with
at least one recorded parent it creates exactly one new person and one
`parent_child (p, sibling)` edge per recorded parent `p`. -/
theorem addSibling_spec (st : RelStore) (pid : Nat) (a : NewAttrs) (sid : Nat) :
    (parentsOf st pid = [] →
      addSibling st pid a sid = (Except.error "Parents required", st)) ∧
    (parentsOf st pid ≠ [] →
      addSibling st pid a sid =
        (Except.ok (),
          { persons := st.persons ++ [mkPerson sid a false],
            parentChild := st.parentChild ++ (parentsOf st pid).map (fun p => (p, sid)),
            marriages := st.marriages })) := by
  constructor
  · intro h
    simp [addSibling, h]
  · intro h
    have hne : (parentsOf st pid).isEmpty = false := by
      simpa [List.isEmpty_iff] using h
    simp [addSibling, hne]

/-- Witness for C5: person 4 has no parents in `relFamily`, person 1 has
parent 2. -/
theorem addSibling_spec_witness :
    addSibling relFamily 4 sampleAttrs 9 = (Except.error "Parents required", relFamily) ∧
      addSibling relFamily 1 sampleAttrs 9 =
        (Except.ok (),
          { persons := relFamily.persons ++ [mkPerson 9 sampleAttrs false],
            parentChild := relFamily.parentChild ++ (parentsOf relFamily 1).map (fun p => (p, 9)),
            marriages := relFamily.marriages }) :=
  ⟨(addSibling_spec relFamily 4 sampleAttrs 9).1 (by decide),
   (addSibling_spec relFamily 1 sampleAttrs 9).2 (by decide)⟩

/-- C6 (amended): a parent-child or marriage edge grants mutual edit rights
whenever both endpoints resolve to existing person rows — which covers every
edge a mutator creates when invoked on an existing target.  Without the
existing-endpoint condition the claim fails, because the mutators never check
that their target exists (see the counterexample). -/
theorem edges_grant_mutual_edit (st : RelStore) (a b : Nat)
    (ha : relExists st a = true) (hb : relExists st b = true) :
    ((a, b) ∈ st.parentChild → canEdit st a b = true ∧ canEdit st b a = true) ∧
    (((a, b) ∈ st.marriages ∨ (b, a) ∈ st.marriages) →
      canEdit st a b = true ∧ canEdit st b a = true) := by
  obtain ⟨pa, hpa⟩ := (relExists_iff st a).mp ha
  obtain ⟨pb, hpb⟩ := (relExists_iff st b).mp hb
  constructor
  · intro h
    constructor
    · exact (canEdit_true_iff st a b).mpr ⟨pa, hpa, Or.inr (Or.inr (Or.inr (Or.inl h)))⟩
    · exact (canEdit_true_iff st b a).mpr ⟨pb, hpb, Or.inr (Or.inr (Or.inl h))⟩
  · intro h
    constructor
    · refine (canEdit_true_iff st a b).mpr ⟨pa, hpa, ?_⟩
      rcases h with h | h
      · exact Or.inr (Or.inr (Or.inr (Or.inr (Or.inl h))))
      · exact Or.inr (Or.inr (Or.inr (Or.inr (Or.inr h))))
    · refine (canEdit_true_iff st b a).mpr ⟨pb, hpb, ?_⟩
      rcases h with h | h
      · exact Or.inr (Or.inr (Or.inr (Or.inr (Or.inr h))))
      · exact Or.inr (Or.inr (Or.inr (Or.inr (Or.inl h))))

/-- Counterexample to C6 as stated: add-father invoked on a target id with no
person row still creates the edge `(2, 1)`, and the fresh father (an existing
person) may edit the absent target, but `canEdit 1 2` is false because editor
1 resolves to no person. -/
theorem mutator_edge_without_target_cex :
    relOrphanEdge.parentChild = [(2, 1)] ∧
      canEdit relOrphanEdge 2 1 = true ∧
      canEdit relOrphanEdge 1 2 = false :=
  ⟨by decide, by decide, by decide⟩

/-- Witness for C6's amended theorem on `relFamily`: parent edge `(2, 1)` and
marriage edge `(1, 3)`, all endpoints existing. -/
theorem edges_grant_mutual_edit_witness :
    (canEdit relFamily 2 1 = true ∧ canEdit relFamily 1 2 = true) ∧
      (canEdit relFamily 1 3 = true ∧ canEdit relFamily 3 1 = true) :=
  ⟨(edges_grant_mutual_edit relFamily 2 1 (by decide) (by decide)).1 (by decide),
   (edges_grant_mutual_edit relFamily 1 3 (by decide) (by decide)).2 (Or.inl (by decide))⟩

theorem find?_append_some {α : Type} {l l2 : List α} {p : α → Bool} {a : α}
    (h : l.find? p = some a) : (l ++ l2).find? p = some a := by
  rw [List.find?_append, h, Option.or_some]

/-- After a successful add-spouse in the FK revision, the target row found by
a lookup is flagged married. -/
theorem addSpouseFk_marks_married {st st' : FkStore} {t : Nat} {a : NewAttrs}
    {sid : Nat} (h : addSpouseFk st t a sid = some (Except.ok (), st')) :
    ∃ q, fkLookup st' t = some q ∧ q.married = true := by
  unfold addSpouseFk at h
  cases hl : fkLookup st t with
  | none => rw [hl] at h; exact absurd h (by simp)
  | some person =>
    obtain ⟨hmem, hid⟩ := fkLookup_mem hl
    rw [hl] at h
    dsimp only at h
    by_cases hm : person.married
    · rw [if_pos hm] at h
      simp at h
    · rw [if_neg hm] at h
      simp only [Option.some.injEq, Prod.mk.injEq, true_and] at h
      subst h
      have hl' : st.persons.find? (fun p => p.id == t) = some person := hl
      have hfind : (st.persons ++ [mkFkSpouse sid a]).find? (fun p => p.id == t) = some person :=
        find?_append_some hl'
      refine
        ⟨(fun p : FkPerson =>
            if p.id = sid then { p with spouse_id := some t, married := true } else p)
          ((fun p : FkPerson =>
              if p.id = t then { p with spouse_id := some sid, married := true } else p)
            person), ?_, ?_⟩
      · show fkLookup _ t = _
        unfold fkLookup
        dsimp only
        rw [List.find?_map, List.find?_map]
        have hcomp :
            (((fun p : FkPerson => p.id == t) ∘
                fun p => if p.id = sid then { p with spouse_id := some t, married := true } else p) ∘
              fun p => if p.id = t then { p with spouse_id := some sid, married := true } else p) =
            (fun p : FkPerson => p.id == t) := by
          funext x
          simp only [Function.comp]
          by_cases h1 : x.id = t <;> by_cases h2 : x.id = sid <;>
            simp [h1, h2, apply_ite]
        rw [hcomp, hfind]
        rfl
      · by_cases h2 : person.id = sid <;>
          simp [hid, h2] <;>
          (split <;> rfl)

/-- C4: add-spouse followed immediately by a second add-spouse on the same
target.  FK revision: the first successful call flags the target married, so
the second call is rejected by the `married == 1` check with a client-visible
error before any write, leaving the store unchanged.  Normalized revision
(no marital check): both calls succeed and the target ends up with at least
two concurrent marriage edges. -/
theorem addSpouse_second_call (fkSt fkSt' : FkStore) (t : Nat) (a a2 : NewAttrs)
    (sid sid2 : Nat) (h1 : addSpouseFk fkSt t a sid = some (Except.ok (), fkSt'))
    (rSt : RelStore) (rt : Nat) (b b2 : NewAttrs) (rid rid2 : Nat) :
    addSpouseFk fkSt' t a2 sid2 = some (Except.error "Already married", fkSt') ∧
    (addSpouse (addSpouse rSt rt b rid).2 rt b2 rid2).1 = Except.ok () ∧
    2 ≤ (marriagesOf (addSpouse (addSpouse rSt rt b rid).2 rt b2 rid2).2 rt).length := by
  obtain ⟨q, hq, hqm⟩ := addSpouseFk_marks_married h1
  refine ⟨?_, rfl, ?_⟩
  · unfold addSpouseFk
    rw [hq]
    dsimp only
    rw [if_pos hqm]
  · simp only [addSpouse, marriagesOf, List.filter_append, List.length_append]
    simp

/-- Witness for C4: a first add-spouse on the single person of `fkSingle`
succeeds, the immediate second one is rejected; two add-spouse calls on
person 1 of `relCouple` stack a second and third marriage edge. -/
theorem addSpouse_second_call_witness :
    addSpouseFk fkSingleAfterSpouse 1 sampleAttrs 3 =
        some (Except.error "Already married", fkSingleAfterSpouse) ∧
      (addSpouse (addSpouse relCouple 1 sampleAttrs 7).2 1 sampleAttrs 8).1 = Except.ok () ∧
      2 ≤ (marriagesOf (addSpouse (addSpouse relCouple 1 sampleAttrs 7).2 1 sampleAttrs 8).2 1).length :=
  addSpouse_second_call fkSingle fkSingleAfterSpouse 1 sampleAttrs sampleAttrs 2 3 rfl
    relCouple 1 sampleAttrs sampleAttrs 7 8

/-- C9: in the FK revision, when the target id matches no person row the
add-spouse and add-child handlers read `.married` off the absent `rows[0]`
record instead of answering; the crash is modelled as `none`, so neither
handler produces a response (in particular no clean NotFound) — target
existence is required for the handlers to be total. -/
theorem fk_handlers_crash_on_missing_target (st : FkStore) (t : Nat)
    (a : NewAttrs) (nid : Nat) (h : fkLookup st t = none) :
    addSpouseFk st t a nid = none ∧ addChildFk st t a nid = none := by
  constructor
  · unfold addSpouseFk
    rw [h]
  · unfold addChildFk
    rw [h]

/-- Witness for C9: id 5 matches no row of `fkSingle`. -/
theorem fk_handlers_crash_witness :
    addSpouseFk fkSingle 5 sampleAttrs 9 = none ∧
      addChildFk fkSingle 5 sampleAttrs 9 = none :=
  fk_handlers_crash_on_missing_target fkSingle 5 sampleAttrs 9 (by decide)

/-- C8: the login handler compares the shared secret before any person
lookup — any mismatch yields 401 regardless of the names; with a matching
secret it yields 404 exactly when no stored person has the given names, and
otherwise 200 with a stored person record bearing those names. -/
theorem login_spec (secret : String) (st : RelStore) (f s k : String) :
    (k ≠ secret → login secret st f s k = LoginResult.unauthorized) ∧
    (k = secret →
      (login secret st f s k = LoginResult.userNotFound ↔
        ∀ p ∈ st.persons, ¬(p.firstname = f ∧ p.surname = s)) ∧
      (∀ p, login secret st f s k = LoginResult.ok p →
        p ∈ st.persons ∧ p.firstname = f ∧ p.surname = s) ∧
      ((∃ p ∈ st.persons, p.firstname = f ∧ p.surname = s) →
        ∃ p, login secret st f s k = LoginResult.ok p ∧
          p ∈ st.persons ∧ p.firstname = f ∧ p.surname = s)) := by
  constructor
  · intro h
    simp [login, h]
  · intro h
    have key : login secret st f s k =
        (match st.persons.filter (fun p => p.firstname == f && p.surname == s) with
         | [] => LoginResult.userNotFound
         | p :: _ => LoginResult.ok p) := by
      simp [login, h]
    cases hr : st.persons.filter (fun p => p.firstname == f && p.surname == s) with
    | nil =>
      have key2 : login secret st f s k = LoginResult.userNotFound := by
        rw [key, hr]
      have hall : ∀ p ∈ st.persons, ¬(p.firstname = f ∧ p.surname = s) := by
        intro p hp
        have := List.filter_eq_nil_iff.mp hr p hp
        simpa using this
      refine ⟨?_, ?_, ?_⟩
      · rw [key2]
        exact ⟨fun _ => hall, fun _ => rfl⟩
      · intro p hp
        rw [key2] at hp
        exact absurd hp (by simp)
      · rintro ⟨p, hp, hf, hs2⟩
        exact absurd ⟨hf, hs2⟩ (hall p hp)
    | cons q rest =>
      have key2 : login secret st f s k = LoginResult.ok q := by
        rw [key, hr]
      have hq : q ∈ st.persons ∧ (q.firstname == f && q.surname == s) = true := by
        have hmem : q ∈ st.persons.filter (fun p => p.firstname == f && p.surname == s) := by
          rw [hr]
          exact List.mem_cons_self q rest
        exact List.mem_filter.mp hmem
      have hqf : q.firstname = f ∧ q.surname = s := by
        have hb := hq.2
        simp at hb
        exact hb
      refine ⟨?_, ?_, ?_⟩
      · rw [key2]
        constructor
        · intro hcontra
          exact absurd hcontra (by simp)
        · intro hall
          exact absurd hqf (hall q hq.1)
      · intro p hp
        rw [key2] at hp
        have hqp : q = p := by
          injection hp with h2
        subst hqp
        exact ⟨hq.1, hqf⟩
      · intro _
        exact ⟨q, key2, hq.1, hqf⟩

/-- Witness for C8: wrong secret is rejected even for a stored name; right
secret resolves the stored person of `relFamily`. -/
theorem login_spec_witness :
    login "pk" relFamily "f" "s" "bad" = LoginResult.unauthorized ∧
      (∃ p, login "pk" relFamily "f" "s" "pk" = LoginResult.ok p ∧
        p ∈ relFamily.persons ∧ p.firstname = "f" ∧ p.surname = "s") :=
  ⟨(login_spec "pk" relFamily "f" "s" "bad").1 (by decide),
   ((login_spec "pk" relFamily "f" "s" "pk").2 rfl).2.2
     ⟨basePerson 1, by decide, by decide, by decide⟩⟩

/-- C7: a permitted partial-merge PUT whose body carries only a non-empty
instagram value rewrites exactly the instagram field of the rows matching the
target id and changes nothing else — all other fields of the target keep
their prior value and every other person row is untouched. -/
theorem put_instagram_only_frame (st : RelStore) (e t : Nat) (s : String)
    (hperm : canEdit st e t = true) (hs : s ≠ "") :
    putPerson st e t (instagramOnlyBody s) none =
      (Except.ok (), { st with persons := st.persons.map (setInstagram t s) }) := by
  unfold putPerson
  rw [if_pos hperm]
  have hfun : (fun p : Person => if p.id = t then mergePerson p (instagramOnlyBody s) none else p)
      = setInstagram t s := by
    funext p
    unfold setInstagram
    by_cases hp : p.id = t
    · rw [if_pos hp, if_pos hp]
      simp [mergePerson, instagramOnlyBody, coalesceStr, coalesceBool, mergeOpt, hs]
    · rw [if_neg hp, if_neg hp]
  rw [hfun]

/-- Witness for C7: editor 2 is a parent of target 1 in `relFamily`. -/
theorem put_instagram_only_frame_witness :
    putPerson relFamily 2 1 (instagramOnlyBody "x") none =
      (Except.ok (), { relFamily with persons := relFamily.persons.map (setInstagram 1 "x") }) :=
  put_instagram_only_frame relFamily 2 1 "x" (by decide) (by decide)

theorem coalesceStr_getD_of_empty {o : Option String} {d : String}
    (h : o = some "") : (coalesceStr o).getD d = d := by
  subst h
  simp [coalesceStr]

theorem coalesceStr_merge_of_empty {o col : Option String}
    (h : o = some "") : mergeOpt (coalesceStr o) col = col := by
  subst h
  simp [coalesceStr, mergeOpt]

theorem coalesceStr_getD_empty {o : Option String} {d : String}
    (h : (coalesceStr o).getD d = "") : d = "" := by
  cases o with
  | none => simpa [coalesceStr] using h
  | some v =>
    by_cases hv : v = ""
    · simpa [coalesceStr, hv] using h
    · rw [coalesceStr, if_neg hv] at h
      simp at h
      exact absurd h hv

theorem coalesceStr_merge_empty {o col : Option String}
    (h : mergeOpt (coalesceStr o) col = some "") : col = some "" := by
  cases o with
  | none => simpa [coalesceStr, mergeOpt] using h
  | some v =>
    by_cases hv : v = ""
    · simpa [coalesceStr, hv, mergeOpt] using h
    · rw [coalesceStr, if_neg hv, mergeOpt] at h
      simp at h
      exact absurd h hv

/-- Lookup of the target row after a permitted partial-merge PUT: the row is
exactly the COALESCE-merge of the prior row. -/
theorem putPerson_lookup {st : RelStore} {e t : Nat} {b : UpdateBody}
    {photo : Option String} {p : Person}
    (hp : relLookup st t = some p)
    (hok : (putPerson st e t b photo).1 = Except.ok ()) :
    relLookup (putPerson st e t b photo).2 t = some (mergePerson p b photo) := by
  have hid : p.id = t := (relLookup_mem hp).2
  unfold putPerson at hok ⊢
  by_cases hc : canEdit st e t = true
  · rw [if_pos hc]
    dsimp only
    unfold relLookup at hp ⊢
    dsimp only
    have hcomp : ((fun q : Person => q.id == t) ∘
        (fun q => if q.id = t then mergePerson q b photo else q)) =
        (fun q : Person => q.id == t) := by
      funext x
      by_cases hx : x.id = t <;> simp [Function.comp, hx, mergePerson]
    rw [List.find?_map, hcomp, hp]
    simp [hid]
  · rw [if_neg hc] at hok
    simp at hok

/-- C10: in the partial-merge update every supplied falsy value (empty
string, `false`/`0` for `married`) is coalesced to NULL and treated as
omitted, so the stored field keeps its prior value; consequently a permitted
PUT can never reset `married` to false and can never clear a text field to
the empty string. -/
theorem put_coalesces_falsy (st : RelStore) (e t : Nat) (b : UpdateBody)
    (photo : Option String) (p : Person)
    (hp : relLookup st t = some p)
    (hok : (putPerson st e t b photo).1 = Except.ok ()) :
    relLookup (putPerson st e t b photo).2 t = some (mergePerson p b photo) ∧
    (b.firstname = some "" → (mergePerson p b photo).firstname = p.firstname) ∧
    (b.surname = some "" → (mergePerson p b photo).surname = p.surname) ∧
    (b.dob = some "" → (mergePerson p b photo).dob = p.dob) ∧
    (b.gender = some "" → (mergePerson p b photo).gender = p.gender) ∧
    (b.instagram = some "" → (mergePerson p b photo).instagram = p.instagram) ∧
    (b.anniversary = some "" → (mergePerson p b photo).anniversary = p.anniversary) ∧
    (b.married = some false → (mergePerson p b photo).married = p.married) ∧
    (p.married = true → (mergePerson p b photo).married = true) ∧
    ((mergePerson p b photo).firstname = "" → p.firstname = "") ∧
    ((mergePerson p b photo).surname = "" → p.surname = "") ∧
    ((mergePerson p b photo).dob = "" → p.dob = "") ∧
    ((mergePerson p b photo).gender = some "" → p.gender = some "") ∧
    ((mergePerson p b photo).instagram = some "" → p.instagram = some "") ∧
    ((mergePerson p b photo).anniversary = some "" → p.anniversary = some "") := by
  refine ⟨putPerson_lookup hp hok, ?_, ?_, ?_, ?_, ?_, ?_, ?_, ?_, ?_, ?_, ?_, ?_, ?_, ?_⟩
  · intro h
    exact coalesceStr_getD_of_empty h
  · intro h
    exact coalesceStr_getD_of_empty h
  · intro h
    exact coalesceStr_getD_of_empty h
  · intro h
    exact coalesceStr_merge_of_empty h
  · intro h
    exact coalesceStr_merge_of_empty h
  · intro h
    exact coalesceStr_merge_of_empty h
  · intro h
    simp [mergePerson, coalesceBool, h]
  · intro h
    cases hb : b.married with
    | none => simp [mergePerson, coalesceBool, hb, h]
    | some v => cases v <;> simp [mergePerson, coalesceBool, hb, h]
  · intro h
    exact coalesceStr_getD_empty h
  · intro h
    exact coalesceStr_getD_empty h
  · intro h
    exact coalesceStr_getD_empty h
  · intro h
    exact coalesceStr_merge_empty h
  · intro h
    exact coalesceStr_merge_empty h
  · intro h
    exact coalesceStr_merge_empty h

/-- Witness for C10: a permitted PUT on person 1 of `relFamily` with every
body value falsy leaves the looked-up row equal to the merge of its prior
value (which changes nothing). -/
theorem put_coalesces_falsy_witness :
    relLookup (putPerson relFamily 2 1 falsyBody none).2 1 =
      some (mergePerson (basePerson 1) falsyBody none) :=
  (put_coalesces_falsy relFamily 2 1 falsyBody none (basePerson 1)
    (by decide) rfl).1

end Family
